import Mathlib

/-!
# ChatCPG v2 — subscription/quota core, shallow embedding

The repository's billing and quota core (Usage Ledger, Quota Policy Engine,
Subscription State Machine, Event Reconciler) is specified in `spec.md`;
the backend implementation is not among the shipped source files, so those
components are modelled from the spec's words (each such definition says so
in its doc comment).  The frontend components that ARE shipped
(`SubscriptionPlans.tsx`, `UsageDashboard.tsx`) are embedded from their
source.
-/

namespace ChatCPG

/-! ## Tiers, resources and the static limit table -/

/-- Subscription tier (`free`, `pro`, `enterprise`). -/
inductive Tier
  | free
  | pro
  | enterprise
deriving DecidableEq, Repr

/-- Quota-metered resource; the resource set is closed (spec §4.1). -/
inductive Resource
  | conversations
  | file_uploads
  | knowledge_base_bytes
deriving DecidableEq, Repr

/-- Modelled from the spec: the static limit table keyed by `(tier, resource)`
(spec §4.2), with the concrete numbers from the repository README's
"Usage Limits by Tier" table (free: 10 conversations, 5 uploads, 10 MB;
pro: 100, 50, 100 MB; enterprise: unlimited, unlimited, 1 GB).
`-1` is the unlimited sentinel. -/
def limitTable : Tier → Resource → Int
  | .free, .conversations => 10
  | .free, .file_uploads => 5
  | .free, .knowledge_base_bytes => 10 * 1024 * 1024
  | .pro, .conversations => 100
  | .pro, .file_uploads => 50
  | .pro, .knowledge_base_bytes => 100 * 1024 * 1024
  | .enterprise, .conversations => -1
  | .enterprise, .file_uploads => -1
  | .enterprise, .knowledge_base_bytes => 1024 * 1024 * 1024

/-! ## Quota Policy Engine -/

/-- Result record of the quota check (spec §4.2). `percentage` is a float in
the implementation; embedded as an exact rational. -/
structure CheckResult where
  allowed : Bool
  limit : Int
  used : Int
  unlimited : Bool
  percentage : ℚ
deriving DecidableEq, Repr

/-- Modelled from the spec: the pure quota check `check(tier, resource, used)`
(spec §4.2): `-1` means unlimited (percentage 0, always allowed);
otherwise `percentage = used / limit * 100` and
`allowed = unlimited OR used < limit`. -/
def check (tier : Tier) (resource : Resource) (used : Int) : CheckResult :=
  let limit := limitTable tier resource
  { allowed := decide (limit = -1) || decide (used < limit)
    limit := limit
    used := used
    unlimited := decide (limit = -1)
    percentage := if limit = -1 then 0 else (used : ℚ) / (limit : ℚ) * 100 }

/-! ## Usage Ledger -/

/-- One usage-counter row per (account, month) (spec §3).  Counters are
embedded as `Int` so that non-negativity is a proved invariant, not a typing
artefact. -/
structure UsagePeriod where
  conversations_used : Int
  file_uploads_used : Int
  knowledge_base_bytes_used : Int
  period_start : Nat
  period_end : Nat
deriving DecidableEq, Repr

/-- Abstract length of a billing period.  The spec keys periods by calendar
month; the claims depend only on `period_end` lying strictly in the future
of the creation instant, which any positive length gives. -/
def monthLength : Nat := 30

/-- Modelled from the spec: the fresh `UsagePeriod` created lazily on first
report of a new month (spec §3): all counters zero. -/
def freshPeriod (now : Nat) : UsagePeriod :=
  { conversations_used := 0
    file_uploads_used := 0
    knowledge_base_bytes_used := 0
    period_start := now
    period_end := now + monthLength }

/-- Ledger failure modes (spec §4.1 / §7). -/
inductive LedgerError
  | NotFoundError
  | InvalidArgument
deriving DecidableEq, Repr

/-- The durable ledger: per known account, the list of its usage periods,
most recent first.  Presence of the key is what makes an account known;
periods are never deleted (spec §3), so rollover conses a fresh row. -/
abbrev Ledger : Type := List (String × List UsagePeriod)

/-- Look up an account's period history (head = current candidate). -/
def findHistory : Ledger → String → Option (List UsagePeriod)
  | [], _ => none
  | (b, h) :: rest, a => if b = a then some h else findHistory rest a

/-- Replace an account's period history, leaving other accounts untouched. -/
def setHistory (l : Ledger) (a : String) (h : List UsagePeriod) : Ledger :=
  l.map fun entry => if entry.1 = a then (a, h) else entry

/-- Modelled from the spec: implicit rollover (spec §4.1): if the stored
period's `period_end` has passed, the current period is a fresh one and the
stale row is retained in history; otherwise the stored head is current. -/
def rolled (now : Nat) (h : List UsagePeriod) : UsagePeriod × List UsagePeriod :=
  match h with
  | [] => (freshPeriod now, [])
  | p :: rest => if p.period_end < now then (freshPeriod now, p :: rest) else (p, rest)

/-- Modelled from the spec: the per-resource counter update (spec §4.1).
`knowledge_base_bytes` may go down but clamps at zero with a consistency
warning; the other counters simply add the (validated non-negative) delta. -/
def applyDelta (p : UsagePeriod) (r : Resource) (delta : Int) : UsagePeriod × Bool :=
  match r with
  | .conversations => ({ p with conversations_used := p.conversations_used + delta }, false)
  | .file_uploads => ({ p with file_uploads_used := p.file_uploads_used + delta }, false)
  | .knowledge_base_bytes =>
      let next := p.knowledge_base_bytes_used + delta
      if next < 0 then ({ p with knowledge_base_bytes_used := 0 }, true)
      else ({ p with knowledge_base_bytes_used := next }, false)

/-- Successful outcome of `report`: the post-increment ledger, the
post-increment snapshot of the current period, and the consistency-warning
flag for a clamped knowledge-base decrement. -/
structure ReportOk where
  ledger : Ledger
  period : UsagePeriod
  warning : Bool

/-- Modelled from the spec: `report(account, resource, delta)` (spec §4.1):
unknown account fails with `NotFoundError`; a negative delta on an
increment-only counter fails with `InvalidArgument`; otherwise the (lazily
rolled-over) current period's counter is updated and the snapshot returned. -/
def report (l : Ledger) (a : String) (r : Resource) (delta : Int) (now : Nat) :
    Except LedgerError ReportOk :=
  match findHistory l a with
  | none => .error .NotFoundError
  | some h =>
    if delta < 0 ∧ r ≠ .knowledge_base_bytes then .error .InvalidArgument
    else
      let cur := (rolled now h).1
      let rest := (rolled now h).2
      let upd := applyDelta cur r delta
      .ok { ledger := setHistory l a (upd.1 :: rest), period := upd.1, warning := upd.2 }

/-- Modelled from the spec: `peek(account, resource)` (spec §4.1): returns
the current snapshot without incrementing, but still performs the implicit
rollover (a peek on a stale period also creates the fresh row). -/
def peek (l : Ledger) (a : String) (now : Nat) :
    Except LedgerError (Ledger × UsagePeriod) :=
  match findHistory l a with
  | none => .error .NotFoundError
  | some h =>
    let cur := (rolled now h).1
    let rest := (rolled now h).2
    .ok (setHistory l a (cur :: rest), cur)

/-- One Usage Ledger operation, for reasoning about operation sequences. -/
inductive LedgerOp
  | reportOp (a : String) (r : Resource) (delta : Int) (now : Nat)
  | peekOp (a : String) (now : Nat)

/-- The state action of one ledger operation; a failed operation leaves the
ledger unchanged. -/
def applyOp (l : Ledger) (op : LedgerOp) : Ledger :=
  match op with
  | .reportOp a r d now =>
    match report l a r d now with
    | .ok out => out.ledger
    | .error _ => l
  | .peekOp a now =>
    match peek l a now with
    | .ok lp => lp.1
    | .error _ => l

/-- The state action of a sequence of ledger operations. -/
def applyOps (l : Ledger) (ops : List LedgerOp) : Ledger :=
  ops.foldl applyOp l

/-- All counters of a period are non-negative. -/
def periodWF (p : UsagePeriod) : Prop :=
  0 ≤ p.conversations_used ∧ 0 ≤ p.file_uploads_used ∧ 0 ≤ p.knowledge_base_bytes_used

/-- Every period ever stored for any account is non-negative. -/
def ledgerWF (l : Ledger) : Prop :=
  ∀ a h, (a, h) ∈ l → ∀ p ∈ h, periodWF p

/-! ## Subscription State Machine and Event Reconciler -/

/-- Subscription statuses (spec §4.3). -/
inductive SubStatus
  | incomplete
  | trialing
  | active
  | past_due
  | canceled
  | unpaid
deriving DecidableEq, Repr

/-- The authoritative billing record of an account (spec §3). -/
structure Subscription where
  tier : Tier
  status : SubStatus
  current_period_end : Nat
  external_subscription_id : Option String
  cancel_at_period_end : Bool
deriving DecidableEq, Repr

/-- Payment attempt statuses (spec §3). -/
inductive PayStatus
  | pending
  | succeeded
  | failed
  | refunded
deriving DecidableEq, Repr

/-- Append-only ledger row of one payment attempt (spec §3): write-once per
`external_payment_id`; later events may update `status` only. -/
structure PaymentRecord where
  external_payment_id : String
  amount : Int
  currency : String
  status : PayStatus
  occurred_at : Nat
deriving DecidableEq, Repr

/-- An inbound payment-processor event, already parsed from the webhook
payload: type tag, idempotency key, and the optional references and payment
data the dispatch needs (spec §4.4). -/
structure ProcEvent where
  event_type : String
  external_event_id : String
  external_subscription_id : Option String
  external_payment_id : Option String
  amount : Int
  currency : String
  payload_status : Option String
  payload_period_end : Option Nat
  occurred_at : Nat
deriving DecidableEq, Repr

/-- What applying one event did: a state transition, a record-only outcome
(unknown type, orphaned reference, duplicate payment, no matching
transition), or a rejection of a malformed event. -/
inductive ReconcileOutcome
  | applied (prev next : SubStatus)
  | recorded
  | rejected
deriving DecidableEq, Repr

/-- Append-only audit row (spec §3): type, unique `external_event_id`, the
payload snapshot, receipt time, and the recorded result returned to
duplicate deliveries. -/
structure SubscriptionEvent where
  event_type : String
  external_event_id : String
  payload_snapshot : ProcEvent
  received_at : Nat
  result : ReconcileOutcome
deriving DecidableEq, Repr

/-- The reconciler's durable state: subscriptions keyed by
`external_subscription_id`, the payment ledger, and the audit trail
(most recent first). -/
structure ReconcilerState where
  subs : List (String × Subscription)
  payments : List PaymentRecord
  events : List SubscriptionEvent
deriving DecidableEq, Repr

/-- Audit-trail lookup by idempotency key. -/
def findEvent : List SubscriptionEvent → String → Option SubscriptionEvent
  | [], _ => none
  | row :: rest, id => if row.external_event_id = id then some row else findEvent rest id

/-- Number of audit rows carrying a given idempotency key. -/
def countEvents (evs : List SubscriptionEvent) (id : String) : Nat :=
  evs.countP fun row => decide (row.external_event_id = id)

/-- Payment-ledger lookup by `external_payment_id`. -/
def findPayment : List PaymentRecord → String → Option PaymentRecord
  | [], _ => none
  | rec :: rest, pid => if rec.external_payment_id = pid then some rec else findPayment rest pid

/-- Subscription lookup by `external_subscription_id`. -/
def findSub : List (String × Subscription) → String → Option Subscription
  | [], _ => none
  | (k, s) :: rest, sid => if k = sid then some s else findSub rest sid

/-- Replace the subscription stored under a key, leaving other rows alone. -/
def setSub (subs : List (String × Subscription)) (key : String) (s : Subscription) :
    List (String × Subscription) :=
  subs.map fun kv => if kv.1 = key then (key, s) else kv

/-- Modelled from the spec: the time-based lapse (spec §4.3): a non-canceled
subscription with `cancel_at_period_end` set whose `current_period_end` has
elapsed is immediately `canceled`. -/
def lapse (sub : Subscription) (now : Nat) : Subscription :=
  if sub.cancel_at_period_end ∧ sub.current_period_end < now ∧ sub.status ≠ .canceled then
    { sub with status := .canceled }
  else sub

/-- Modelled from the spec: the event-driven transition relation of the
Subscription State Machine (spec §4.3).  `canceled` admits no outgoing
transition; unknown event types and non-matching states yield `none`
(recorded, ignored). -/
def transition (st : SubStatus) (e : ProcEvent) : Option SubStatus :=
  if st = .canceled then none
  else if e.event_type = "subscription.deleted" then some .canceled
  else if e.event_type = "checkout.session.completed" then
    if st = .incomplete then some .active else none
  else if e.event_type = "invoice.payment_succeeded" then
    if st = .incomplete ∨ st = .past_due then some .active else none
  else if e.event_type = "invoice.payment_failed" then
    if st = .active then some .past_due else none
  else if e.event_type = "subscription.updated" then
    if st = .past_due ∧ e.payload_status = some "unpaid" then some .unpaid else none
  else none

/-- The payment status a payment-bearing event type carries, if any. -/
def payStatusOf (etype : String) : Option PayStatus :=
  if etype = "invoice.payment_succeeded" then some .succeeded
  else if etype = "invoice.payment_failed" then some .failed
  else none

/-- Modelled from the spec: the status-only update a later payment event may
make to an existing PaymentRecord (spec §3 / §4.4 step 3): a retried event
carrying the already-stored status is a no-op; `failed` arriving after
`succeeded` is an out-of-order anomaly, recorded but not applied; otherwise
only `status` is rewritten. -/
def paymentStatusUpdate (st : PayStatus) (rec : PaymentRecord) : PaymentRecord :=
  if st = .failed ∧ rec.status = .succeeded then rec
  else if st = rec.status then rec
  else { rec with status := st }

/-- Modelled from the spec: the PaymentRecord upsert (spec §4.4 step 3):
the first event for an id inserts the record; later events for the same id
go through `paymentStatusUpdate`, never touching amount or currency. -/
def upsertPayment (recs : List PaymentRecord) (pid : String) (amount : Int)
    (currency : String) (st : PayStatus) (now : Nat) : List PaymentRecord :=
  match findPayment recs pid with
  | none =>
    { external_payment_id := pid, amount := amount, currency := currency,
      status := st, occurred_at := now } :: recs
  | some _ =>
    recs.map fun rec =>
      if rec.external_payment_id = pid then paymentStatusUpdate st rec else rec

/-- Modelled from the spec: the subscription half of dispatch (spec §4.3 /
§4.4): resolve the referenced subscription (orphaned or unreferenced events
produce no change), apply the time-based lapse, then the event-driven
transition; an activation sets `current_period_end` from the payload. -/
def dispatchSubs (subs : List (String × Subscription)) (e : ProcEvent) :
    List (String × Subscription) × ReconcileOutcome :=
  match e.external_subscription_id with
  | none => (subs, .recorded)
  | some sid =>
    match findSub subs sid with
    | none => (subs, .recorded)
    | some sub =>
      let sub1 := lapse sub e.occurred_at
      match transition sub1.status e with
      | none => (setSub subs sid sub1, .recorded)
      | some next =>
        let sub2 : Subscription :=
          { sub1 with
            status := next
            current_period_end :=
              if next = .active then e.payload_period_end.getD sub1.current_period_end
              else sub1.current_period_end }
        (setSub subs sid sub2, .applied sub1.status next)

/-- Modelled from the spec: the payment half of dispatch (spec §4.4 step 3):
for payment-bearing events, upsert the PaymentRecord keyed by
`external_payment_id`. -/
def dispatchPayments (payments : List PaymentRecord) (e : ProcEvent) : List PaymentRecord :=
  match e.external_payment_id, payStatusOf e.event_type with
  | some pid, some pst => upsertPayment payments pid e.amount e.currency pst e.occurred_at
  | _, _ => payments

/-- Modelled from the spec: step 3 of `apply` (spec §4.4): upsert the payment
ledger for payment-bearing events and dispatch the state-machine transition
for the referenced subscription. -/
def dispatch (s : ReconcilerState) (e : ProcEvent) : ReconcilerState × ReconcileOutcome :=
  ({ subs := (dispatchSubs s.subs e).1
     payments := dispatchPayments s.payments e
     events := s.events },
   (dispatchSubs s.subs e).2)

/-- The audit row persisted for an event together with its recorded result. -/
def recordRow (e : ProcEvent) (res : ReconcileOutcome) : SubscriptionEvent :=
  { event_type := e.event_type
    external_event_id := e.external_event_id
    payload_snapshot := e
    received_at := e.occurred_at
    result := res }

/-- Modelled from the spec: `apply(event) -> ReconcileResult` (spec §4.4).
Step 1: if the idempotency key already exists in the audit trail, return the
previously recorded result without reapplying.  A malformed event (missing
required fields) is recorded with a `rejected` marker and applies nothing.
Otherwise steps 2–4: dispatch, then persist the audit row with the result. -/
def applyEvent (s : ReconcilerState) (e : ProcEvent) : ReconcilerState × ReconcileOutcome :=
  match findEvent s.events e.external_event_id with
  | some prior => (s, prior.result)
  | none =>
    if e.event_type = "" ∨ e.external_event_id = "" then
      ({ s with events := recordRow e .rejected :: s.events }, .rejected)
    else
      let d := dispatch s e
      ({ d.1 with events := recordRow e d.2 :: d.1.events }, d.2)

/-- The state action of a sequence of reconciled events. -/
def applyEvents (s : ReconcilerState) (es : List ProcEvent) : ReconcilerState :=
  es.foldl (fun st e => (applyEvent st e).1) s

/-! ## Webhook boundary -/

/-- Modelled from the spec: the shared-secret signature the boundary handler
verifies the raw event against (spec §6).  The signing scheme itself is
external; it is embedded as an abstract deterministic tag over the secret
and the event. -/
def signatureFor (secret : String) (e : ProcEvent) : String :=
  secret ++ ":" ++ e.external_event_id ++ ":" ++ e.event_type

/-- The boundary handler's answer: an acknowledgment carrying the
reconciler's result, or an `Unauthorized` rejection. -/
inductive HandleAck
  | ack (res : ReconcileOutcome)
  | unauthorized
deriving DecidableEq, Repr

/-- Modelled from the spec: `HandleProcessorEvent(raw_event, signature)`
(spec §6): verifies authenticity against the shared signing secret before
invoking the Event Reconciler; a signature failure is rejected with
`Unauthorized` and nothing is persisted. -/
def HandleProcessorEvent (secret : String) (s : ReconcilerState) (e : ProcEvent)
    (sig : String) : ReconcilerState × HandleAck :=
  if sig = signatureFor secret e then
    let d := applyEvent s e
    (d.1, .ack d.2)
  else (s, .unauthorized)

/-! ## Frontend embeddings (from src/frontend) -/

/-- From `UsageDashboard.tsx`: the per-resource slice of the usage payload. -/
structure ResourceUsage where
  used : Int
  limit : Int
  unlimited : Bool
  percentage : ℚ
deriving DecidableEq, Repr

/-- From `UsageDashboard.tsx` (lines 189–196 and their two clones): the
progress bar is rendered only for a non-unlimited resource, with CSS width
`min(percentage, 100)` percent. -/
def renderedBar (unlimited : Bool) (percentage : ℚ) : Option ℚ :=
  if unlimited then none else some (min percentage 100)

/-- From `SubscriptionPlans.tsx` `formatLimit` (lines 91–95): the displayed
limit text — the branch taken, with the numeric value the MB branch divides
out.  `-1` renders as `Unlimited`. -/
inductive LimitText
  | unlimitedLabel
  | mbValue (q : ℚ)
  | plainValue (n : Int)
deriving DecidableEq, Repr

/-- From `SubscriptionPlans.tsx` `formatLimit`: `-1` → "Unlimited"; unit `MB`
→ `limit / (1024*1024)` with the unit; otherwise the bare number. -/
def formatLimit (limit : Int) (unit : String) : LimitText :=
  if limit = -1 then .unlimitedLabel
  else if unit = "MB" then .mbValue ((limit : ℚ) / (1024 * 1024))
  else .plainValue limit

/-! ## Concrete sample inputs, shared by the witnesses -/

/-- A concrete inbound payment-success event. -/
def sampleEvent : ProcEvent :=
  { event_type := "invoice.payment_succeeded"
    external_event_id := "evt_1"
    external_subscription_id := some "sub_1"
    external_payment_id := some "pay_1"
    amount := 2900
    currency := "usd"
    payload_status := none
    payload_period_end := some 60
    occurred_at := 5 }

/-- A concrete incomplete pro subscription. -/
def sampleSub : Subscription :=
  { tier := .pro
    status := .incomplete
    current_period_end := 30
    external_subscription_id := some "sub_1"
    cancel_at_period_end := false }

/-- A concrete reconciler state holding one incomplete subscription. -/
def sampleState : ReconcilerState :=
  { subs := [("sub_1", sampleSub)], payments := [], events := [] }

/-- A concrete stale usage period: `period_end = 30`, all counters small. -/
def sampleStale : UsagePeriod :=
  { conversations_used := 2
    file_uploads_used := 0
    knowledge_base_bytes_used := 3
    period_start := 0
    period_end := 30 }

/-! ## C4 — the quota check contract -/

/-- C4: for every tier, resource and used value, the quota check returns
`allowed = unlimited OR used < limit`; `unlimited` holds exactly when the
static `(tier, resource)` limit table gives `-1`; and with limit `-1` the
check returns `allowed = true` and `percentage = 0` for every used value. -/
theorem quota_check_contract (t : Tier) (r : Resource) (u : Int) :
    (check t r u).allowed = ((check t r u).unlimited || decide (u < (check t r u).limit)) ∧
    ((check t r u).unlimited = true ↔ limitTable t r = -1) ∧
    (limitTable t r = -1 →
      (check t r u).allowed = true ∧ (check t r u).percentage = 0) := by
  refine ⟨rfl, by simp [check], fun hlim => ?_⟩
  simp [check, hlim]

/-- Witness for C4 at the unlimited enterprise/conversations entry. -/
theorem quota_check_contract_witness :
    (check .enterprise .conversations 5).allowed = true ∧
    (check .enterprise .conversations 5).percentage = 0 :=
  (quota_check_contract .enterprise .conversations 5).2.2 (by decide)

/-! ## C8 — percentage is exact and uncapped -/

/-- C8: for every finite (non `-1`) limit, the check's percentage equals
`used / limit * 100`, and it is not capped: it exceeds 100 whenever `used`
has passed the limit. -/
theorem quota_percentage_uncapped (t : Tier) (r : Resource) (u : Int)
    (hfin : limitTable t r ≠ -1) :
    (check t r u).percentage = (u : ℚ) / (limitTable t r : ℚ) * 100 ∧
    (limitTable t r < u → 100 < (check t r u).percentage) := by
  have hpos : (0 : Int) < limitTable t r := by
    cases t <;> cases r <;> simp only [limitTable] at hfin ⊢ <;> omega
  constructor
  · simp [check, hfin]
  · intro hlt
    have hL : (0 : ℚ) < (limitTable t r : ℚ) := by exact_mod_cast hpos
    have hu : (limitTable t r : ℚ) < (u : ℚ) := by exact_mod_cast hlt
    have h1 : (1 : ℚ) < (u : ℚ) / (limitTable t r : ℚ) := (one_lt_div hL).mpr hu
    have h2 : (100 : ℚ) < (u : ℚ) / (limitTable t r : ℚ) * 100 := by nlinarith
    simpa [check, hfin] using h2

/-- Witness for C8: 11 of 10 free conversations reports above 100 percent. -/
theorem quota_percentage_uncapped_witness :
    (100 : ℚ) < (check .free .conversations 11).percentage :=
  (quota_percentage_uncapped .free .conversations 11 (by decide)).2 (by decide)

/-! ## C9 — bad webhook signature is rejected without persistence -/

/-- C9: a raw processor event whose signature fails verification is rejected
with `Unauthorized`; no SubscriptionEvent row is persisted and the Event
Reconciler is not invoked (the state, audit trail included, is returned
untouched). -/
theorem webhook_bad_signature_rejected (secret : String) (s : ReconcilerState)
    (e : ProcEvent) (sig : String) (hbad : sig ≠ signatureFor secret e) :
    HandleProcessorEvent secret s e sig = (s, .unauthorized) ∧
    (HandleProcessorEvent secret s e sig).1.events = s.events := by
  refine ⟨?_, ?_⟩ <;> simp [HandleProcessorEvent, hbad]

/-- Witness for C9 at a concrete mismatched signature. -/
theorem webhook_bad_signature_rejected_witness :
    HandleProcessorEvent "whsec" sampleState sampleEvent "bad" =
      (sampleState, .unauthorized) :=
  (webhook_bad_signature_rejected "whsec" sampleState sampleEvent "bad" (by decide)).1

/-! ## C10 — the dashboard progress bar is clamped at full width -/

/-- C10: for every rendered resource, the progress-bar width is
`min(percentage, 100)` percent, so the bar never exceeds the full width even
when the reported percentage exceeds 100. -/
theorem dashboard_bar_width_capped (u : Bool) (p : ℚ) :
    renderedBar u p = (if u then none else some (min p 100)) ∧
    ∀ w, renderedBar u p = some w → w = min p 100 ∧ w ≤ 100 := by
  refine ⟨rfl, fun w hw => ?_⟩
  cases u with
  | true => simp [renderedBar] at hw
  | false =>
    simp only [renderedBar, if_neg Bool.false_ne_true, Option.some.injEq] at hw
    exact ⟨hw.symm, hw ▸ min_le_right p 100⟩

/-- Witness for C10: a 150 percent reading renders a bar of width 100. -/
theorem dashboard_bar_width_capped_witness :
    renderedBar false 150 = some 100 ∧ (100 : ℚ) = min 150 100 ∧ (100 : ℚ) ≤ 100 := by
  have h : renderedBar false 150 = some 100 := by
    simp only [renderedBar, if_neg Bool.false_ne_true, Option.some.injEq]
    norm_num [min_def]
  exact ⟨h, (dashboard_bar_width_capped false 150).2 100 h⟩

/-! ## C5 — the free-tier conversations gate -/

/-- A ledger holding one known account with no usage periods yet. -/
def demoLedger : Ledger := [("acct", [])]

/-- The ledger after `n` successive `report(conversations, 1)` calls for the
demo account, all within the same (first) period. -/
def afterReports : Nat → Ledger
  | 0 => demoLedger
  | n + 1 => applyOp (afterReports n) (.reportOp "acct" .conversations 1 0)

/-- The demo account's current period after `n` conversation reports. -/
def demoPeriod (n : Int) : UsagePeriod :=
  { conversations_used := n
    file_uploads_used := 0
    knowledge_base_bytes_used := 0
    period_start := 0
    period_end := monthLength }

/-- The demo account's current conversations counter after `n` reports. -/
def usedAfter (n : Nat) : Int :=
  match findHistory (afterReports n) "acct" with
  | some (p :: _) => p.conversations_used
  | _ => 0

lemma afterReports_succ (n : Nat) :
    afterReports (n + 1) = [("acct", [demoPeriod (n + 1)])] := by
  induction n with
  | zero => decide
  | succ m ih =>
    show applyOp (afterReports (m + 1)) (.reportOp "acct" .conversations 1 0)
      = [("acct", [demoPeriod (m + 2)])]
    rw [ih]
    simp [applyOp, report, findHistory, rolled, applyDelta, setHistory, demoPeriod,
      monthLength]
    ring

lemma usedAfter_eq (n : Nat) : usedAfter n = n := by
  cases n with
  | zero => decide
  | succ m => simp [usedAfter, afterReports_succ, findHistory, demoPeriod]

/-- C5: on the free tier with the conversations limit of 10, before 10
`report(conversations, 1)` calls the check allows; after the 10th report it
denies. -/
theorem free_tier_conversations_gate (n : Nat) :
    (n < 10 → (check .free .conversations (usedAfter n)).allowed = true) ∧
    (check .free .conversations (usedAfter 10)).allowed = false := by
  constructor
  · intro hn
    simp only [check, usedAfter_eq, limitTable]
    simp only [Bool.or_eq_true, decide_eq_true_eq]
    right
    exact_mod_cast hn
  · decide

/-- Witness for C5 at three reports. -/
theorem free_tier_conversations_gate_witness :
    (check .free .conversations (usedAfter 3)).allowed = true ∧
    (check .free .conversations (usedAfter 10)).allowed = false :=
  ⟨(free_tier_conversations_gate 3).1 (by decide), (free_tier_conversations_gate 10).2⟩

/-! ## C6 — implicit rollover on a stale period -/

lemma findHistory_setHistory (l : Ledger) (a : String) (h h' : List UsagePeriod)
    (hl : findHistory l a = some h) :
    findHistory (setHistory l a h') a = some h' := by
  induction l with
  | nil => simp [findHistory] at hl
  | cons entry rest ih =>
    simp only [setHistory, List.map_cons]
    by_cases hcase : entry.1 = a
    · rw [if_pos hcase]
      simp [findHistory]
    · rw [if_neg hcase]
      simp only [findHistory, if_neg hcase] at hl ⊢
      simpa [setHistory] using ih hl

/-- C6: reporting against a stored period whose `period_end` is in the past
first creates a fresh UsagePeriod and increments that one — the returned
period is the incremented fresh period with `conversations_used = 1` — and
the stale period is retained in history with its counters unmodified. -/
theorem report_rolls_over_stale_period (l : Ledger) (a : String) (p : UsagePeriod)
    (rest : List UsagePeriod) (now : Nat)
    (hl : findHistory l a = some (p :: rest)) (hstale : p.period_end < now) :
    ∃ out, report l a .conversations 1 now = .ok out ∧
      out.period = { freshPeriod now with conversations_used := 1 } ∧
      out.period.conversations_used = 1 ∧
      findHistory out.ledger a = some (out.period :: p :: rest) := by
  have hrep : report l a .conversations 1 now =
      .ok { ledger := setHistory l a
              ({ freshPeriod now with conversations_used := 1 } :: p :: rest)
            period := { freshPeriod now with conversations_used := 1 }
            warning := false } := by
    simp [report, hl, rolled, hstale, applyDelta, freshPeriod]
  exact ⟨_, hrep, rfl, rfl, findHistory_setHistory l a _ _ hl⟩

/-- Witness for C6: a stale period (`period_end = 30`) reported against at
time 100 yields a fresh period showing one conversation, with the stale row
retained unchanged. -/
theorem report_rolls_over_stale_period_witness :
    ∃ out, report [("acct", [sampleStale])] "acct" .conversations 1 100 = .ok out ∧
      out.period = { freshPeriod 100 with conversations_used := 1 } ∧
      out.period.conversations_used = 1 ∧
      findHistory out.ledger "acct" = some (out.period :: sampleStale :: []) :=
  report_rolls_over_stale_period [("acct", [sampleStale])] "acct" sampleStale [] 100
    (by decide) (by decide)

/-! ## C1 — exactly-once application of webhook events -/

lemma dispatch_events (s : ReconcilerState) (e : ProcEvent) :
    (dispatch s e).1.events = s.events := rfl

lemma countEvents_of_findEvent_none (evs : List SubscriptionEvent) (id : String)
    (h : findEvent evs id = none) : countEvents evs id = 0 := by
  induction evs with
  | nil => rfl
  | cons row rest ih =>
    by_cases hr : row.external_event_id = id
    · simp [findEvent, hr] at h
    · simp only [findEvent, if_neg hr] at h
      simp [countEvents, List.countP_cons, hr] at ih ⊢
      exact ih h

lemma applyEvent_events_of_fresh (s : ReconcilerState) (e : ProcEvent)
    (hfresh : findEvent s.events e.external_event_id = none) :
    (applyEvent s e).1.events = recordRow e (applyEvent s e).2 :: s.events := by
  by_cases hm : e.event_type = "" ∨ e.external_event_id = ""
  · simp [applyEvent, hfresh, hm]
  · simp [applyEvent, hfresh, hm, dispatch_events]

lemma countEvents_applyEvent_of_fresh (s : ReconcilerState) (e : ProcEvent)
    (hfresh : findEvent s.events e.external_event_id = none) :
    countEvents (applyEvent s e).1.events e.external_event_id = 1 := by
  rw [applyEvent_events_of_fresh s e hfresh, countEvents, List.countP_cons]
  have h0 : countEvents s.events e.external_event_id = 0 :=
    countEvents_of_findEvent_none _ _ hfresh
  rw [countEvents] at h0
  rw [h0]
  simp [recordRow]

/-- C1: applying a webhook event twice with the same `external_event_id`
yields exactly one state transition (the second apply leaves the state
untouched) and exactly one SubscriptionEvent audit row; the second apply
returns the previously recorded result without reapplying. -/
theorem reconciler_exactly_once (s : ReconcilerState) (e : ProcEvent)
    (hfresh : findEvent s.events e.external_event_id = none) :
    (applyEvent (applyEvent s e).1 e).1 = (applyEvent s e).1 ∧
    (applyEvent (applyEvent s e).1 e).2 = (applyEvent s e).2 ∧
    countEvents (applyEvent s e).1.events e.external_event_id = 1 ∧
    countEvents (applyEvent (applyEvent s e).1 e).1.events e.external_event_id = 1 := by
  have hev := applyEvent_events_of_fresh s e hfresh
  have hfind : findEvent (applyEvent s e).1.events e.external_event_id
      = some (recordRow e (applyEvent s e).2) := by
    rw [hev]
    simp [findEvent, recordRow]
  have hsecond : applyEvent (applyEvent s e).1 e
      = ((applyEvent s e).1, (applyEvent s e).2) := by
    conv_lhs => rw [applyEvent, hfind]
    rfl
  have hcount : countEvents (applyEvent s e).1.events e.external_event_id = 1 :=
    countEvents_applyEvent_of_fresh s e hfresh
  refine ⟨?_, ?_, hcount, ?_⟩
  · rw [hsecond]
  · rw [hsecond]
  · rw [hsecond]
    exact hcount

/-- Witness for C1: a concrete payment-success event applied twice to the
sample state. -/
theorem reconciler_exactly_once_witness :
    (applyEvent (applyEvent sampleState sampleEvent).1 sampleEvent).1
      = (applyEvent sampleState sampleEvent).1 ∧
    (applyEvent (applyEvent sampleState sampleEvent).1 sampleEvent).2
      = (applyEvent sampleState sampleEvent).2 ∧
    countEvents (applyEvent sampleState sampleEvent).1.events
      sampleEvent.external_event_id = 1 ∧
    countEvents (applyEvent (applyEvent sampleState sampleEvent).1 sampleEvent).1.events
      sampleEvent.external_event_id = 1 :=
  reconciler_exactly_once sampleState sampleEvent (by decide)

/-! ## C2 — `canceled` is terminal -/

lemma lapse_of_canceled (sub : Subscription) (now : Nat) (hc : sub.status = .canceled) :
    lapse sub now = sub := by
  simp [lapse, hc]

lemma transition_of_canceled (e : ProcEvent) : transition .canceled e = none := by
  simp [transition]

lemma findSub_setSub_self (subs : List (String × Subscription)) (key : String)
    (s s' : Subscription) (h : findSub subs key = some s) :
    findSub (setSub subs key s') key = some s' := by
  induction subs with
  | nil => simp [findSub] at h
  | cons entry rest ih =>
    simp only [setSub, List.map_cons]
    by_cases hcase : entry.1 = key
    · rw [if_pos hcase]
      simp [findSub]
    · rw [if_neg hcase]
      simp only [findSub, if_neg hcase] at h ⊢
      simpa [setSub] using ih h

lemma findSub_setSub_other (subs : List (String × Subscription)) (key k : String)
    (s' : Subscription) (hne : k ≠ key) :
    findSub (setSub subs key s') k = findSub subs k := by
  induction subs with
  | nil => rfl
  | cons entry rest ih =>
    simp only [setSub, List.map_cons]
    by_cases hcase : entry.1 = key
    · rw [if_pos hcase]
      have hk : ¬ key = k := fun h => hne h.symm
      simp only [findSub, if_neg hk, if_neg (hcase ▸ hk)]
      simpa [setSub] using ih
    · rw [if_neg hcase]
      simp only [findSub]
      by_cases hek : entry.1 = k
      · rw [if_pos hek, if_pos hek]
      · rw [if_neg hek, if_neg hek]
        simpa [setSub] using ih

lemma setSub_keys (subs : List (String × Subscription)) (key : String) (s' : Subscription) :
    (setSub subs key s').map Prod.fst = subs.map Prod.fst := by
  induction subs with
  | nil => rfl
  | cons entry rest ih =>
    simp only [setSub, List.map_cons] at ih ⊢
    by_cases hcase : entry.1 = key
    · rw [if_pos hcase, ih]
      simp [hcase]
    · rw [if_neg hcase, ih]

lemma dispatchSubs_canceled_frame (subs : List (String × Subscription)) (e : ProcEvent)
    (sid : String) (sub : Subscription) (hs : findSub subs sid = some sub)
    (hc : sub.status = .canceled) :
    findSub (dispatchSubs subs e).1 sid = some sub ∧
    (dispatchSubs subs e).1.map Prod.fst = subs.map Prod.fst := by
  unfold dispatchSubs
  cases e.external_subscription_id with
  | none => exact ⟨hs, rfl⟩
  | some sid' =>
    by_cases hkey : sid' = sid
    · subst hkey
      simp only [hs, lapse_of_canceled sub e.occurred_at hc, hc, transition_of_canceled]
      exact ⟨findSub_setSub_self subs sid' sub sub hs, setSub_keys subs sid' sub⟩
    · cases hfs : findSub subs sid' with
      | none =>
        simp only [hfs]
        exact ⟨hs, trivial⟩
      | some sub' =>
        cases ht : transition (lapse sub' e.occurred_at).status e with
        | none =>
          simp only [hfs, ht]
          refine ⟨?_, setSub_keys subs sid' _⟩
          rw [findSub_setSub_other subs sid' sid _ (fun h => hkey h.symm)]
          exact hs
        | some next =>
          simp only [hfs, ht]
          refine ⟨?_, setSub_keys subs sid' _⟩
          rw [findSub_setSub_other subs sid' sid _ (fun h => hkey h.symm)]
          exact hs

lemma applyEvent_canceled_frame (s : ReconcilerState) (e : ProcEvent) (sid : String)
    (sub : Subscription) (hs : findSub s.subs sid = some sub)
    (hc : sub.status = .canceled) :
    findSub (applyEvent s e).1.subs sid = some sub ∧
    (applyEvent s e).1.subs.map Prod.fst = s.subs.map Prod.fst := by
  unfold applyEvent
  cases hfind : findEvent s.events e.external_event_id with
  | some prior => exact ⟨hs, rfl⟩
  | none =>
    by_cases hm : e.event_type = "" ∨ e.external_event_id = ""
    · simp only [if_pos hm]
      exact ⟨hs, trivial⟩
    · simp only [if_neg hm]
      exact dispatchSubs_canceled_frame s.subs e sid sub hs hc

/-- C2: a subscription whose status is `canceled` is never moved out of
`canceled` by any sequence of reconciled events: its row is returned
byte-for-byte unchanged (same status, same `external_subscription_id`), and
the reconciler creates no subscription rows, so a reactivation necessarily
lives in a new Subscription row with a new `external_subscription_id`,
created by the (out-of-scope) checkout path, never as a transition of this
row. -/
theorem canceled_is_terminal (s : ReconcilerState) (sid : String) (sub : Subscription)
    (hs : findSub s.subs sid = some sub) (hc : sub.status = .canceled)
    (es : List ProcEvent) :
    findSub (applyEvents s es).subs sid = some sub ∧
    (applyEvents s es).subs.map Prod.fst = s.subs.map Prod.fst := by
  induction es generalizing s with
  | nil => exact ⟨hs, rfl⟩
  | cons e rest ih =>
    have step := applyEvent_canceled_frame s e sid sub hs hc
    have tail := ih (applyEvent s e).1 step.1
    refine ⟨?_, ?_⟩
    · show findSub (applyEvents (applyEvent s e).1 rest).subs sid = some sub
      exact tail.1
    · show (applyEvents (applyEvent s e).1 rest).subs.map Prod.fst = s.subs.map Prod.fst
      exact tail.2.trans step.2

/-- A concrete canceled subscription. -/
def sampleCanceled : Subscription :=
  { tier := .pro
    status := .canceled
    current_period_end := 30
    external_subscription_id := some "sub_9"
    cancel_at_period_end := false }

/-- Witness for C2: a canceled subscription survives a payment-success and a
deletion event for its own id, unchanged. -/
theorem canceled_is_terminal_witness :
    findSub (applyEvents
        { subs := [("sub_9", sampleCanceled)], payments := [], events := [] }
        [{ sampleEvent with external_subscription_id := some "sub_9" },
         { sampleEvent with event_type := "subscription.deleted"
                            external_event_id := "evt_2"
                            external_subscription_id := some "sub_9" }]).subs "sub_9"
      = some sampleCanceled ∧
    (applyEvents
        { subs := [("sub_9", sampleCanceled)], payments := [], events := [] }
        [{ sampleEvent with external_subscription_id := some "sub_9" },
         { sampleEvent with event_type := "subscription.deleted"
                            external_event_id := "evt_2"
                            external_subscription_id := some "sub_9" }]).subs.map Prod.fst
      = [("sub_9", sampleCanceled)].map Prod.fst :=
  canceled_is_terminal
    { subs := [("sub_9", sampleCanceled)], payments := [], events := [] }
    "sub_9" sampleCanceled (by decide) (by decide) _

/-! ## C3 — PaymentRecord is write-once per id; status never reverts -/

lemma paymentStatusUpdate_id (st : PayStatus) (rec : PaymentRecord) :
    (paymentStatusUpdate st rec).external_payment_id = rec.external_payment_id := by
  unfold paymentStatusUpdate
  split_ifs <;> rfl

lemma paymentStatusUpdate_frame (st : PayStatus) (rec : PaymentRecord) :
    (paymentStatusUpdate st rec).amount = rec.amount ∧
    (paymentStatusUpdate st rec).currency = rec.currency ∧
    (paymentStatusUpdate st rec).occurred_at = rec.occurred_at := by
  unfold paymentStatusUpdate
  split_ifs <;> exact ⟨rfl, rfl, rfl⟩

lemma paymentStatusUpdate_no_revert (rec : PaymentRecord)
    (hsucc : rec.status = .succeeded) :
    (paymentStatusUpdate .failed rec).status = .succeeded := by
  unfold paymentStatusUpdate
  rw [if_pos ⟨rfl, hsucc⟩]
  exact hsucc

lemma findPayment_map_update_self (recs : List PaymentRecord) (pid : String)
    (g : PaymentRecord → PaymentRecord)
    (hg : ∀ r, (g r).external_payment_id = r.external_payment_id)
    (rec : PaymentRecord) (h : findPayment recs pid = some rec) :
    findPayment (recs.map fun r => if r.external_payment_id = pid then g r else r) pid
      = some (g rec) := by
  induction recs with
  | nil => simp [findPayment] at h
  | cons r rest ih =>
    simp only [List.map_cons]
    by_cases hr : r.external_payment_id = pid
    · rw [if_pos hr]
      simp only [findPayment, if_pos hr, Option.some.injEq] at h
      subst h
      have hgr : (g r).external_payment_id = pid := by rw [hg r]; exact hr
      simp only [findPayment, if_pos hgr]
    · rw [if_neg hr]
      simp only [findPayment, if_neg hr] at h ⊢
      exact ih h

lemma findPayment_map_update_other (recs : List PaymentRecord) (pid P : String)
    (g : PaymentRecord → PaymentRecord)
    (hg : ∀ r, (g r).external_payment_id = r.external_payment_id)
    (hne : pid ≠ P) :
    findPayment (recs.map fun r => if r.external_payment_id = pid then g r else r) P
      = findPayment recs P := by
  induction recs with
  | nil => rfl
  | cons r rest ih =>
    simp only [List.map_cons]
    by_cases hr : r.external_payment_id = pid
    · rw [if_pos hr]
      have h2 : ¬ (g r).external_payment_id = P := by
        rw [hg r, hr]; exact hne
      have h3 : ¬ r.external_payment_id = P := by rw [hr]; exact hne
      simp only [findPayment, if_neg h2, if_neg h3]
      exact ih
    · rw [if_neg hr]
      simp only [findPayment]
      by_cases hp : r.external_payment_id = P
      · rw [if_pos hp, if_pos hp]
      · rw [if_neg hp, if_neg hp]
        exact ih

lemma upsertPayment_of_found (recs : List PaymentRecord) (pid : String)
    (amount : Int) (currency : String) (st : PayStatus) (now : Nat)
    (rec : PaymentRecord) (h : findPayment recs pid = some rec) :
    upsertPayment recs pid amount currency st now =
      recs.map fun r => if r.external_payment_id = pid then paymentStatusUpdate st r else r := by
  unfold upsertPayment
  rw [h]

lemma upsertPayment_of_not_found (recs : List PaymentRecord) (pid : String)
    (amount : Int) (currency : String) (st : PayStatus) (now : Nat)
    (h : findPayment recs pid = none) :
    upsertPayment recs pid amount currency st now =
      { external_payment_id := pid, amount := amount, currency := currency,
        status := st, occurred_at := now } :: recs := by
  unfold upsertPayment
  rw [h]

lemma dispatchPayments_frame (payments : List PaymentRecord) (e : ProcEvent)
    (P : String) (rec : PaymentRecord) (h : findPayment payments P = some rec) :
    ∃ rec', findPayment (dispatchPayments payments e) P = some rec' ∧
      rec'.external_payment_id = rec.external_payment_id ∧
      rec'.amount = rec.amount ∧
      rec'.currency = rec.currency ∧
      rec'.occurred_at = rec.occurred_at ∧
      (rec.status = .succeeded → e.external_payment_id = some P →
        e.event_type = "invoice.payment_failed" → rec'.status = .succeeded) := by
  unfold dispatchPayments
  split
  · rename_i pid pst hpid hst
    by_cases hpq : pid = P
    · subst hpq
      rw [upsertPayment_of_found payments pid e.amount e.currency pst e.occurred_at rec h]
      refine ⟨paymentStatusUpdate pst rec,
        findPayment_map_update_self payments pid (paymentStatusUpdate pst)
          (paymentStatusUpdate_id pst) rec h,
        paymentStatusUpdate_id pst rec,
        (paymentStatusUpdate_frame pst rec).1,
        (paymentStatusUpdate_frame pst rec).2.1,
        (paymentStatusUpdate_frame pst rec).2.2,
        fun hsucc hPe hft => ?_⟩
      have hpstf : pst = .failed := by
        rw [hft] at hst
        simp only [payStatusOf] at hst
        simp at hst
        exact hst.symm
      rw [hpstf]
      exact paymentStatusUpdate_no_revert rec hsucc
    · cases hfp : findPayment payments pid with
      | none =>
        rw [upsertPayment_of_not_found payments pid e.amount e.currency pst e.occurred_at hfp]
        refine ⟨rec, ?_, rfl, rfl, rfl, rfl, fun _ hPe _ => ?_⟩
        · simp only [findPayment, if_neg hpq]
          exact h
        · rw [hpid] at hPe
          cases hPe
          exact absurd rfl hpq
      | some other =>
        rw [upsertPayment_of_found payments pid e.amount e.currency pst e.occurred_at other hfp]
        refine ⟨rec, ?_, rfl, rfl, rfl, rfl, fun _ hPe _ => ?_⟩
        · rw [findPayment_map_update_other payments pid P (paymentStatusUpdate pst)
            (paymentStatusUpdate_id pst) hpq]
          exact h
        · rw [hpid] at hPe
          cases hPe
          exact absurd rfl hpq
  · rename_i hfall
    refine ⟨rec, h, rfl, rfl, rfl, rfl, fun _ hPe hft => ?_⟩
    exact (hfall P .failed hPe (by rw [hft]; rfl)).elim

lemma applyEvent_payments_cases (s : ReconcilerState) (e : ProcEvent) :
    (applyEvent s e).1.payments = s.payments ∨
    (applyEvent s e).1.payments = dispatchPayments s.payments e := by
  unfold applyEvent
  cases findEvent s.events e.external_event_id with
  | some prior => exact Or.inl rfl
  | none =>
    by_cases hm : e.event_type = "" ∨ e.external_event_id = ""
    · rw [if_pos hm]
      exact Or.inl rfl
    · rw [if_neg hm]
      exact Or.inr rfl

/-- C3: once a PaymentRecord with `external_payment_id = P` is `succeeded`, a
later `invoice.payment_failed` event for the same `P` is recorded in the
audit trail but the record's status remains `succeeded`; and no later event
whatsoever changes the record's amount or currency (only `status` may ever
be updated). -/
theorem payment_record_write_once (s : ReconcilerState) (e : ProcEvent) (P : String)
    (rec : PaymentRecord) (h : findPayment s.payments P = some rec) :
    ∃ rec', findPayment (applyEvent s e).1.payments P = some rec' ∧
      rec'.external_payment_id = rec.external_payment_id ∧
      rec'.amount = rec.amount ∧
      rec'.currency = rec.currency ∧
      rec'.occurred_at = rec.occurred_at ∧
      (rec.status = .succeeded → e.external_payment_id = some P →
        e.event_type = "invoice.payment_failed" → rec'.status = .succeeded) ∧
      (findEvent s.events e.external_event_id = none → e.external_event_id ≠ "" →
        e.event_type = "invoice.payment_failed" →
        countEvents (applyEvent s e).1.events e.external_event_id = 1) := by
  rcases applyEvent_payments_cases s e with hpay | hpay
  · exact ⟨rec, by rw [hpay]; exact h, rfl, rfl, rfl, rfl,
      fun hsucc _ _ => hsucc,
      fun hfresh _ _ => countEvents_applyEvent_of_fresh s e hfresh⟩
  · obtain ⟨rec', hfound, hid, hamt, hcur, hocc, hnorev⟩ :=
      dispatchPayments_frame s.payments e P rec h
    exact ⟨rec', by rw [hpay]; exact hfound, hid, hamt, hcur, hocc, hnorev,
      fun hfresh _ _ => countEvents_applyEvent_of_fresh s e hfresh⟩

/-- A concrete succeeded payment record. -/
def samplePaid : PaymentRecord :=
  { external_payment_id := "pay_1"
    amount := 2900
    currency := "usd"
    status := .succeeded
    occurred_at := 5 }

/-- Witness for C3: a late `invoice.payment_failed` for an already-succeeded
payment id leaves the record succeeded with amount and currency intact,
while the event itself lands in the audit trail. -/
theorem payment_record_write_once_witness :
    ∃ rec', findPayment (applyEvent
        { subs := [], payments := [samplePaid], events := [] }
        { sampleEvent with event_type := "invoice.payment_failed"
                           external_event_id := "evt_7"
                           external_subscription_id := none }).1.payments "pay_1"
      = some rec' ∧
      rec'.external_payment_id = samplePaid.external_payment_id ∧
      rec'.amount = samplePaid.amount ∧
      rec'.currency = samplePaid.currency ∧
      rec'.occurred_at = samplePaid.occurred_at ∧
      (samplePaid.status = .succeeded →
        ({ sampleEvent with event_type := "invoice.payment_failed"
                            external_event_id := "evt_7"
                            external_subscription_id := none } : ProcEvent).external_payment_id
          = some "pay_1" →
        ({ sampleEvent with event_type := "invoice.payment_failed"
                            external_event_id := "evt_7"
                            external_subscription_id := none } : ProcEvent).event_type
          = "invoice.payment_failed" → rec'.status = .succeeded) ∧
      (findEvent ([] : List SubscriptionEvent) "evt_7" = none → ("evt_7" : String) ≠ "" →
        ({ sampleEvent with event_type := "invoice.payment_failed"
                            external_event_id := "evt_7"
                            external_subscription_id := none } : ProcEvent).event_type
          = "invoice.payment_failed" →
        countEvents (applyEvent
          { subs := [], payments := [samplePaid], events := [] }
          { sampleEvent with event_type := "invoice.payment_failed"
                             external_event_id := "evt_7"
                             external_subscription_id := none }).1.events "evt_7" = 1) :=
  payment_record_write_once
    { subs := [], payments := [samplePaid], events := [] }
    { sampleEvent with event_type := "invoice.payment_failed"
                       external_event_id := "evt_7"
                       external_subscription_id := none }
    "pay_1" samplePaid (by decide)

/-! ## C7 — counter monotonicity and the non-negative clamp -/

lemma periodWF_freshPeriod (now : Nat) : periodWF (freshPeriod now) :=
  ⟨le_refl 0, le_refl 0, le_refl 0⟩

lemma periodWF_applyDelta (p : UsagePeriod) (r : Resource) (d : Int)
    (hp : periodWF p) (hd : 0 ≤ d ∨ r = .knowledge_base_bytes) :
    periodWF (applyDelta p r d).1 := by
  obtain ⟨h1, h2, h3⟩ := hp
  cases r with
  | conversations =>
    have hd0 : 0 ≤ d := hd.resolve_right (by intro hx; cases hx)
    exact ⟨by show (0 : Int) ≤ p.conversations_used + d; omega, h2, h3⟩
  | file_uploads =>
    have hd0 : 0 ≤ d := hd.resolve_right (by intro hx; cases hx)
    exact ⟨h1, by show (0 : Int) ≤ p.file_uploads_used + d; omega, h3⟩
  | knowledge_base_bytes =>
    have hsplit : applyDelta p .knowledge_base_bytes d =
        if p.knowledge_base_bytes_used + d < 0
        then ({ p with knowledge_base_bytes_used := 0 }, true)
        else ({ p with knowledge_base_bytes_used := p.knowledge_base_bytes_used + d },
              false) := rfl
    rw [hsplit]
    by_cases hneg : p.knowledge_base_bytes_used + d < 0
    · rw [if_pos hneg]
      exact ⟨h1, h2, le_refl 0⟩
    · rw [if_neg hneg]
      exact ⟨h1, h2, by show (0 : Int) ≤ p.knowledge_base_bytes_used + d; omega⟩

lemma rolled_wf (now : Nat) (h : List UsagePeriod) (hall : ∀ p ∈ h, periodWF p) :
    periodWF (rolled now h).1 ∧ ∀ p ∈ (rolled now h).2, periodWF p := by
  cases h with
  | nil => exact ⟨periodWF_freshPeriod now, fun p hp => by cases hp⟩
  | cons q rest =>
    have hr : rolled now (q :: rest) =
        if q.period_end < now then (freshPeriod now, q :: rest) else (q, rest) := rfl
    rw [hr]
    by_cases hc : q.period_end < now
    · rw [if_pos hc]
      exact ⟨periodWF_freshPeriod now, hall⟩
    · rw [if_neg hc]
      exact ⟨hall q (List.mem_cons_self q rest), fun p hp => hall p (List.mem_cons_of_mem q hp)⟩

lemma mem_of_findHistory (l : Ledger) (a : String) (h : List UsagePeriod)
    (hl : findHistory l a = some h) : (a, h) ∈ l := by
  induction l with
  | nil => cases hl
  | cons entry rest ih =>
    cases entry with
    | mk b hist =>
      simp only [findHistory] at hl
      by_cases hc : b = a
      · rw [if_pos hc] at hl
        cases hl
        subst hc
        exact List.mem_cons_self _ _
      · rw [if_neg hc] at hl
        exact List.mem_cons_of_mem _ (ih hl)

lemma ledgerWF_setHistory (l : Ledger) (a : String) (newh : List UsagePeriod)
    (hl : ledgerWF l) (hh : ∀ p ∈ newh, periodWF p) :
    ledgerWF (setHistory l a newh) := by
  intro b h' hmem p hp
  rcases List.mem_map.mp hmem with ⟨entry, hentry, heq⟩
  by_cases hc : entry.1 = a
  · rw [if_pos hc] at heq
    injection heq with hb hh'
    subst hh'
    exact hh p hp
  · rw [if_neg hc] at heq
    exact hl b h' (heq ▸ hentry) p hp

lemma report_ok_wf (l : Ledger) (a : String) (r : Resource) (d : Int) (now : Nat)
    (out : ReportOk) (hl : ledgerWF l) (hr : report l a r d now = .ok out) :
    ledgerWF out.ledger ∧ periodWF out.period := by
  unfold report at hr
  cases hfh : findHistory l a with
  | none => rw [hfh] at hr; cases hr
  | some h =>
    simp only [hfh] at hr
    by_cases hg : d < 0 ∧ r ≠ .knowledge_base_bytes
    · rw [if_pos hg] at hr; cases hr
    · rw [if_neg hg] at hr
      have hall : ∀ p ∈ h, periodWF p :=
        fun p hp => hl a h (mem_of_findHistory l a h hfh) p hp
      obtain ⟨hcur, hrest⟩ := rolled_wf now h hall
      have hd : 0 ≤ d ∨ r = .knowledge_base_bytes := by
        by_cases hkb : r = .knowledge_base_bytes
        · exact Or.inr hkb
        · exact Or.inl (by by_contra hneg; exact hg ⟨by omega, hkb⟩)
      have hWFupd : periodWF (applyDelta (rolled now h).1 r d).1 :=
        periodWF_applyDelta _ r d hcur hd
      cases hr
      refine ⟨?_, hWFupd⟩
      apply ledgerWF_setHistory l a _ hl
      intro p hp
      rcases List.mem_cons.mp hp with rfl | hp
      · exact hWFupd
      · exact hrest p hp

lemma peek_ok_wf (l : Ledger) (a : String) (now : Nat) (lp : Ledger × UsagePeriod)
    (hl : ledgerWF l) (hr : peek l a now = .ok lp) : ledgerWF lp.1 := by
  unfold peek at hr
  cases hfh : findHistory l a with
  | none => rw [hfh] at hr; cases hr
  | some h =>
    rw [hfh] at hr
    cases hr
    have hall : ∀ p ∈ h, periodWF p :=
      fun p hp => hl a h (mem_of_findHistory l a h hfh) p hp
    obtain ⟨hcur, hrest⟩ := rolled_wf now h hall
    apply ledgerWF_setHistory l a _ hl
    intro q hq
    rcases List.mem_cons.mp hq with rfl | hq
    · exact hcur
    · exact hrest q hq

lemma ledgerWF_applyOp (l : Ledger) (op : LedgerOp) (hl : ledgerWF l) :
    ledgerWF (applyOp l op) := by
  cases op with
  | reportOp a r d now =>
    show ledgerWF (match report l a r d now with
      | .ok out => out.ledger
      | .error _ => l)
    cases hr : report l a r d now with
    | ok out => exact (report_ok_wf l a r d now out hl hr).1
    | error err => exact hl
  | peekOp a now =>
    show ledgerWF (match peek l a now with
      | .ok lp => lp.1
      | .error _ => l)
    cases hr : peek l a now with
    | ok lp => exact peek_ok_wf l a now lp hl hr
    | error err => exact hl

lemma ledgerWF_applyOps (ops : List LedgerOp) :
    ∀ l : Ledger, ledgerWF l → ledgerWF (applyOps l ops) := by
  induction ops with
  | nil => exact fun l hl => hl
  | cons op rest ih => exact fun l hl => ih (applyOp l op) (ledgerWF_applyOp l op hl)

lemma report_nonkb_monotone (l : Ledger) (a : String) (r : Resource) (d : Int)
    (now : Nat) (h : List UsagePeriod) (out : ReportOk)
    (hfh : findHistory l a = some h) (hr : report l a r d now = .ok out) :
    (rolled now h).1.conversations_used ≤ out.period.conversations_used ∧
    (rolled now h).1.file_uploads_used ≤ out.period.file_uploads_used := by
  unfold report at hr
  simp only [hfh] at hr
  by_cases hg : d < 0 ∧ r ≠ .knowledge_base_bytes
  · rw [if_pos hg] at hr; cases hr
  · rw [if_neg hg] at hr
    cases hr
    cases r with
    | conversations =>
      have hd0 : 0 ≤ d := by
        by_contra hneg
        exact hg ⟨by omega, by intro hx; cases hx⟩
      constructor
      · show (rolled now h).1.conversations_used ≤ (rolled now h).1.conversations_used + d
        omega
      · exact le_refl _
    | file_uploads =>
      have hd0 : 0 ≤ d := by
        by_contra hneg
        exact hg ⟨by omega, by intro hx; cases hx⟩
      constructor
      · exact le_refl _
      · show (rolled now h).1.file_uploads_used ≤ (rolled now h).1.file_uploads_used + d
        omega
    | knowledge_base_bytes =>
      have hsplit : applyDelta (rolled now h).1 .knowledge_base_bytes d =
          if (rolled now h).1.knowledge_base_bytes_used + d < 0
          then ({ (rolled now h).1 with knowledge_base_bytes_used := 0 }, true)
          else ({ (rolled now h).1 with knowledge_base_bytes_used :=
                    (rolled now h).1.knowledge_base_bytes_used + d }, false) := rfl
      rw [hsplit]
      by_cases hneg : (rolled now h).1.knowledge_base_bytes_used + d < 0
      · rw [if_pos hneg]
        exact ⟨le_refl _, le_refl _⟩
      · rw [if_neg hneg]
        exact ⟨le_refl _, le_refl _⟩

lemma report_kb_clamp (l : Ledger) (a : String) (d : Int) (now : Nat)
    (h : List UsagePeriod) (hfh : findHistory l a = some h) :
    ∃ out, report l a .knowledge_base_bytes d now = .ok out ∧
      ((rolled now h).1.knowledge_base_bytes_used + d < 0 →
        out.period.knowledge_base_bytes_used = 0 ∧ out.warning = true) ∧
      (0 ≤ (rolled now h).1.knowledge_base_bytes_used + d →
        out.period.knowledge_base_bytes_used =
          (rolled now h).1.knowledge_base_bytes_used + d ∧ out.warning = false) := by
  have hrep : report l a .knowledge_base_bytes d now =
      .ok { ledger := setHistory l a
              ((applyDelta (rolled now h).1 .knowledge_base_bytes d).1 :: (rolled now h).2)
            period := (applyDelta (rolled now h).1 .knowledge_base_bytes d).1
            warning := (applyDelta (rolled now h).1 .knowledge_base_bytes d).2 } := by
    unfold report
    simp only [hfh]
    rw [if_neg (fun hx => hx.2 rfl)]
  refine ⟨_, hrep, ?_, ?_⟩
  · intro hneg
    have hsplit : applyDelta (rolled now h).1 .knowledge_base_bytes d =
        ({ (rolled now h).1 with knowledge_base_bytes_used := 0 }, true) := by
      show (if (rolled now h).1.knowledge_base_bytes_used + d < 0 then _ else _) = _
      rw [if_pos hneg]
    rw [hsplit]
    exact ⟨rfl, rfl⟩
  · intro hpos
    have hsplit : applyDelta (rolled now h).1 .knowledge_base_bytes d =
        ({ (rolled now h).1 with knowledge_base_bytes_used :=
            (rolled now h).1.knowledge_base_bytes_used + d }, false) := by
      show (if (rolled now h).1.knowledge_base_bytes_used + d < 0 then _ else _) = _
      rw [if_neg (by omega)]
    rw [hsplit]
    exact ⟨rfl, rfl⟩

/-- C7: within one period, every counter other than `knowledge_base_bytes`
is monotonically non-decreasing under successful reports, every counter of
every stored period stays non-negative under arbitrary operation sequences,
and a knowledge-base decrement past zero succeeds (no error) with the
counter clamped to zero and the consistency warning raised. -/
theorem ledger_counters_invariant (l : Ledger) (hl : ledgerWF l) :
    (∀ ops : List LedgerOp, ledgerWF (applyOps l ops)) ∧
    (∀ a r d now h out, findHistory l a = some h → report l a r d now = .ok out →
      (rolled now h).1.conversations_used ≤ out.period.conversations_used ∧
      (rolled now h).1.file_uploads_used ≤ out.period.file_uploads_used ∧
      periodWF out.period) ∧
    (∀ a d now h, findHistory l a = some h →
      ∃ out, report l a .knowledge_base_bytes d now = .ok out ∧
        ((rolled now h).1.knowledge_base_bytes_used + d < 0 →
          out.period.knowledge_base_bytes_used = 0 ∧ out.warning = true)) := by
  refine ⟨fun ops => ledgerWF_applyOps ops l hl, ?_, ?_⟩
  · intro a r d now h out hfh hr
    obtain ⟨h1, h2⟩ := report_nonkb_monotone l a r d now h out hfh hr
    exact ⟨h1, h2, (report_ok_wf l a r d now out hl hr).2⟩
  · intro a d now h hfh
    obtain ⟨out, hrep, hclamp, _⟩ := report_kb_clamp l a d now h hfh
    exact ⟨out, hrep, hclamp⟩

/-- Witness for C7: a knowledge-base decrement past zero on a concrete
ledger succeeds, clamps the counter to zero and raises the warning. -/
theorem ledger_counters_invariant_witness :
    ∃ out, report [("acct", [sampleStale])] "acct" .knowledge_base_bytes (-5) 100
        = .ok out ∧
      ((rolled 100 [sampleStale]).1.knowledge_base_bytes_used + (-5) < 0 →
        out.period.knowledge_base_bytes_used = 0 ∧ out.warning = true) :=
  (ledger_counters_invariant [("acct", [sampleStale])] (by
      intro a h hm p hp
      simp only [List.mem_singleton] at hm
      simp only [Prod.mk.injEq] at hm
      obtain ⟨rfl, rfl⟩ := hm
      simp only [List.mem_singleton] at hp
      subst hp
      exact ⟨by decide, by decide, by decide⟩)).2.2 "acct" (-5) 100 [sampleStale] rfl

end ChatCPG
